import Mathlib

/-!
Verification of the infinite-parallax-carousel script (src/script.js).

The script is modelled over ℚ: JavaScript numbers become rationals, the
shared mutable globals become an explicit state structure `CState`, each
event listener becomes a state-transformer function, and the body of the
`gsap.ticker` callback is split into the motion update (`tickMotion`) and
the per-card visual-channel computations (`baseX`, `cardScale`, ...).
-/

namespace Carousel

/-- `friction` constant from the source (`const friction = 0.91`). -/
def friction : ℚ := 91 / 100

/-- `wheelMultiplier` constant from the source (`const wheelMultiplier = 0.1`). -/
def wheelMultiplier : ℚ := 1 / 10

/-- `lerpSpeed` constant from the source (`const lerpSpeed = 0.14`). -/
def lerpSpeed : ℚ := 14 / 100

/-- Truncation toward zero, as used by the JavaScript `%` operator. -/
def ratTrunc (q : ℚ) : ℤ := if 0 ≤ q then ⌊q⌋ else ⌈q⌉

/-- The JavaScript remainder operator `x % m` on finite numbers:
`x - m * trunc(x / m)` (result carries the sign of `x`). -/
def jsMod (x m : ℚ) : ℚ := x - m * (ratTrunc (x / m) : ℚ)

/-- `wrap(x)` from the source: `((x % totalWidth) + totalWidth) % totalWidth`,
with the modulus made an explicit argument. -/
def wrap (totalWidth x : ℚ) : ℚ := jsMod (jsMod x totalWidth + totalWidth) totalWidth

/-- `easeScale(t)` from the source: `t < 0.5 ? 2*t*t : -1 + (4 - 2*t)*t`. -/
def easeScale (t : ℚ) : ℚ := if t < 1 / 2 then 2 * t * t else -1 + (4 - 2 * t) * t

/-- `gsap.utils.clamp(lo, hi, v)`. -/
def clampQ (lo hi v : ℚ) : ℚ := max (min v hi) lo

/-- `gsap.utils.mapRange(inMin, inMax, outMin, outMax, value)`:
linear interpolation, with no clamping. -/
def mapRange (inMin inMax outMin outMax value : ℚ) : ℚ :=
  outMin + (value - inMin) / (inMax - inMin) * (outMax - outMin)

/-- The script's mutable globals, gathered into one state record.
`windowInnerWidth` models the ambient `window.innerWidth`, and `numCards`
models `cards.length` (the looped track after cloning). -/
structure CState where
  position : ℚ
  velocity : ℚ
  smoothPos : ℚ
  isDragging : Bool
  lastX : ℚ
  dragStartX : ℚ
  dragStartTime : ℚ
  touchStartX : Option ℚ
  itemW : ℚ
  totalWidth : ℚ
  visibleCenterX : ℚ
  windowInnerWidth : ℚ
  numCards : ℕ
  deriving DecidableEq

/-- The `wheel` listener: `velocity += e.deltaY * wheelMultiplier`. -/
def onWheel (s : CState) (deltaY : ℚ) : CState :=
  { s with velocity := s.velocity + deltaY * wheelMultiplier }

/-- The `touchstart` listener: `touchStartX = e.touches[0].clientX`. -/
def onTouchStart (s : CState) (clientX : ℚ) : CState :=
  { s with touchStartX := some clientX }

/-- The `touchmove` listener: if a touch is tracked, shift `position` by the
delta from the last touch X and update the reference. -/
def onTouchMove (s : CState) (clientX : ℚ) : CState :=
  match s.touchStartX with
  | none => s
  | some t0 => { s with position := s.position - (clientX - t0), touchStartX := some clientX }

/-- The `touchend` listener: `touchStartX = null`. -/
def onTouchEnd (s : CState) : CState :=
  { s with touchStartX := none }

/-- The `mousedown` listener: enter dragging, record start coordinate and
time, zero the velocity. -/
def onMouseDown (s : CState) (clientX now : ℚ) : CState :=
  { s with isDragging := true, lastX := clientX, dragStartX := clientX,
           dragStartTime := now, velocity := 0 }

/-- The `mouseup` listener: if dragging, leave the dragging state and, when
the elapsed time is positive, set `velocity` to the clamped exit velocity
`Math.max(Math.min(-(dx/dt)*0.03, 30), -30)`. -/
def onMouseUp (s : CState) (clientX now : ℚ) : CState :=
  if s.isDragging then
    if 0 < (now - s.dragStartTime) / 1000 then
      { s with isDragging := false,
               velocity :=
                 max (min (-((clientX - s.dragStartX) / ((now - s.dragStartTime) / 1000))
                       * (3 / 100)) 30) (-30) }
    else
      { s with isDragging := false }
  else s

/-- The `mousemove` listener: while dragging, `position -= dx * 0.8` and
update `lastX`. -/
def onMouseMove (s : CState) (clientX : ℚ) : CState :=
  if s.isDragging then
    { s with position := s.position - (clientX - s.lastX) * (8 / 10), lastX := clientX }
  else s

/-- The `resize` listener: re-measure the item width (`newItemW` stands for
the value `getItemWidth()` reads from the layout), recompute `totalWidth`
and the viewport center for the new window width. -/
def onResize (s : CState) (newItemW newWindowWidth : ℚ) : CState :=
  { s with itemW := newItemW,
           totalWidth := newItemW * (s.numCards : ℚ),
           windowInnerWidth := newWindowWidth,
           visibleCenterX := newWindowWidth / 2 }

/-- The motion-state part of the `gsap.ticker` callback: integrate velocity
and apply friction unless dragging, then lerp `smoothPos` toward
`position`. -/
def tickMotion (s : CState) : CState :=
  let s1 := if s.isDragging then s
            else { s with position := s.position + s.velocity,
                          velocity := s.velocity * friction }
  { s1 with smoothPos := s1.smoothPos + (s1.position - s1.smoothPos) * lerpSpeed }

/-- `baseX` for card `i` in the ticker loop: `wrap(i * itemW - smoothPos)`. -/
def baseX (s : CState) (i : ℕ) : ℚ := wrap s.totalWidth ((i : ℚ) * s.itemW - s.smoothPos)

/-- `finalX` for card `i`: `baseX - totalWidth / 2 + visibleCenterX`. -/
def finalX (s : CState) (i : ℕ) : ℚ := baseX s i - s.totalWidth / 2 + s.visibleCenterX

/-- `cardCenterX` for card `i`: `finalX + itemW / 2`. -/
def cardCenterX (s : CState) (i : ℕ) : ℚ := finalX s i + s.itemW / 2

/-- `dist` for card `i`: distance of the card center from the viewport center. -/
def cardDist (s : CState) (i : ℕ) : ℚ := |cardCenterX s i - s.visibleCenterX|

/-- The eased, clamped, normalized distance `t` used for all visual channels:
`easeScale(clamp(0, 1, dist / max(window.innerWidth, 900)))`. -/
def cardT (s : CState) (i : ℕ) : ℚ :=
  easeScale (clampQ 0 1 (cardDist s i / max s.windowInnerWidth 900))

/-- `scale = mapRange(0, 1, 1, 0.65, t)`. -/
def cardScale (s : CState) (i : ℕ) : ℚ := mapRange 0 1 1 (65 / 100) (cardT s i)

/-- `blur = mapRange(0, 1, 0, 6, t)`. -/
def cardBlur (s : CState) (i : ℕ) : ℚ := mapRange 0 1 0 6 (cardT s i)

/-- `brightness = mapRange(0, 1, 1, 0.6, t)`. -/
def cardBrightness (s : CState) (i : ℕ) : ℚ := mapRange 0 1 1 (6 / 10) (cardT s i)

/-- The inner-image parallax X:
`mapRange(-w/2, w/2, 40, -40, cardCenterX - visibleCenterX)` with `w` the
window width; the source applies no clamp to it. -/
def parallaxX (s : CState) (i : ℕ) : ℚ :=
  mapRange (-s.windowInnerWidth / 2) (s.windowInnerWidth / 2) 40 (-40)
    (cardCenterX s i - s.visibleCenterX)

/-- The inner-image parallax Y:
`mapRange(-w/2, w/2, -10, 10, cardCenterX - visibleCenterX)`, unclamped. -/
def parallaxY (s : CState) (i : ℕ) : ℚ :=
  mapRange (-s.windowInnerWidth / 2) (s.windowInnerWidth / 2) (-10) 10
    (cardCenterX s i - s.visibleCenterX)

/-- A concrete state in the middle of a mouse drag, pressed at X = 100 at
time 0 (used to instantiate the drag-related theorems). -/
def dragState : CState :=
  { position := 0, velocity := 0, smoothPos := 0, isDragging := true,
    lastX := 100, dragStartX := 100, dragStartTime := 0, touchStartX := none,
    itemW := 300, totalWidth := 900, visibleCenterX := 512,
    windowInnerWidth := 1024, numCards := 3 }

/-- A concrete resting state whose smoothed position has caught up with the
raw position. -/
def steadyState : CState :=
  { position := 5, velocity := 0, smoothPos := 5, isDragging := false,
    lastX := 0, dragStartX := 0, dragStartTime := 0, touchStartX := none,
    itemW := 300, totalWidth := 900, visibleCenterX := 512,
    windowInnerWidth := 1024, numCards := 3 }

/-- A concrete state with zero velocity but with the smoothed position still
lagging behind the raw position. -/
def lagState : CState :=
  { position := 1, velocity := 0, smoothPos := 0, isDragging := false,
    lastX := 0, dragStartX := 0, dragStartTime := 0, touchStartX := none,
    itemW := 300, totalWidth := 900, visibleCenterX := 512,
    windowInnerWidth := 1024, numCards := 3 }

/-- A concrete state on a narrow window whose card 0 sits far outside the
viewport: its center lands at -350 while the viewport center is 50. -/
def farState : CState :=
  { position := 0, velocity := 0, smoothPos := 0, isDragging := false,
    lastX := 0, dragStartX := 0, dragStartTime := 0, touchStartX := none,
    itemW := 400, totalWidth := 1200, visibleCenterX := 50,
    windowInnerWidth := 100, numCards := 3 }

/- ### Helper lemmas -/

/-- For a nonnegative dividend and positive modulus, `jsMod` lands in `[0, m)`. -/
lemma jsMod_mem_of_nonneg {x m : ℚ} (hm : 0 < m) (hx : 0 ≤ x) :
    0 ≤ jsMod x m ∧ jsMod x m < m := by
  have hq : 0 ≤ x / m := div_nonneg hx hm.le
  have hx' : x = m * (x / m) := (mul_div_cancel₀ x hm.ne').symm
  have h1 : ((⌊x / m⌋ : ℚ)) ≤ x / m := Int.floor_le _
  have h2 : x / m < (⌊x / m⌋ : ℚ) + 1 := Int.lt_floor_add_one _
  rw [jsMod, ratTrunc, if_pos hq]
  constructor
  · nlinarith
  · nlinarith

/-- For a negative dividend and positive modulus, `jsMod` lands in `(-m, 0]`. -/
lemma jsMod_mem_of_neg {x m : ℚ} (hm : 0 < m) (hx : x < 0) :
    -m < jsMod x m ∧ jsMod x m ≤ 0 := by
  have hq : x / m < 0 := div_neg_of_neg_of_pos hx hm
  have hq' : ¬ 0 ≤ x / m := not_le.mpr hq
  have hx' : x = m * (x / m) := (mul_div_cancel₀ x hm.ne').symm
  have h1 : x / m ≤ ((⌈x / m⌉ : ℚ)) := Int.le_ceil _
  have h2 : ((⌈x / m⌉ : ℚ)) < x / m + 1 := Int.ceil_lt_add_one _
  rw [jsMod, ratTrunc, if_neg hq']
  constructor
  · nlinarith
  · nlinarith

/-- `clampQ 0 1` always lands in `[0, 1]`. -/
lemma clampQ_mem (v : ℚ) : 0 ≤ clampQ 0 1 v ∧ clampQ 0 1 v ≤ 1 := by
  constructor
  · exact le_max_right _ _
  · have h : min v 1 ≤ 1 := min_le_right _ _
    exact max_le h (by norm_num)

/-- On `[0, 1]`, `easeScale` stays in `[0, 1]`. -/
lemma easeScale_mem {t : ℚ} (h0 : 0 ≤ t) (h1 : t ≤ 1) :
    0 ≤ easeScale t ∧ easeScale t ≤ 1 := by
  rw [easeScale]
  split_ifs with h
  · constructor
    · nlinarith
    · nlinarith
  · push_neg at h
    constructor
    · nlinarith
    · nlinarith

/- ### Claim theorems -/

/-- C1: for every rational `x` and modulus `m > 0`, `wrap` (with
`totalWidth = m`) returns a value in `[0, m)`, including for negative `x`
and for `x` exactly divisible by `m`. -/
theorem wrap_mem_Ico (x m : ℚ) (hm : 0 < m) : 0 ≤ wrap m x ∧ wrap m x < m := by
  have hr : -m < jsMod x m ∧ jsMod x m < m := by
    rcases le_or_lt 0 x with hx | hx
    · have h := jsMod_mem_of_nonneg hm hx
      exact ⟨by linarith [h.1], h.2⟩
    · have h := jsMod_mem_of_neg hm hx
      exact ⟨h.1, lt_of_le_of_lt h.2 hm⟩
  have hy : 0 ≤ jsMod x m + m := by linarith [hr.1]
  have h := jsMod_mem_of_nonneg hm hy
  exact ⟨h.1, h.2⟩

/-- Witness for C1 at a negative input exactly divisible by the modulus:
`wrap 3 (-6) = 0 ∈ [0, 3)`. -/
theorem wrap_mem_Ico_witness : 0 ≤ wrap 3 (-6) ∧ wrap 3 (-6) < 3 :=
  wrap_mem_Ico (-6) 3 (by norm_num)

/-- C2: `easeScale` fixes `0`, `1` and `1/2`, and is continuous and
monotonically non-decreasing on `[0, 1]`. -/
theorem easeScale_spec :
    easeScale 0 = 0 ∧ easeScale 1 = 1 ∧ easeScale (1 / 2) = 1 / 2 ∧
    ContinuousOn easeScale (Set.Icc (0 : ℚ) 1) ∧
    MonotoneOn easeScale (Set.Icc (0 : ℚ) 1) := by
  refine ⟨by norm_num [easeScale], by norm_num [easeScale], by norm_num [easeScale], ?_, ?_⟩
  · have hfun : easeScale = fun t : ℚ => if t ≤ 1 / 2 then 2 * t * t else -1 + (4 - 2 * t) * t := by
      funext t
      rw [easeScale]
      rcases lt_trichotomy t (1 / 2) with h | h | h
      · rw [if_pos h, if_pos h.le]
      · subst h; norm_num
      · rw [if_neg (not_lt.mpr h.le), if_neg (not_le.mpr h)]
    rw [hfun]
    have hcont : Continuous fun t : ℚ => if t ≤ 1 / 2 then 2 * t * t else -1 + (4 - 2 * t) * t := by
      apply Continuous.if_le
      · exact (continuous_const.mul continuous_id).mul continuous_id
      · exact continuous_const.add ((continuous_const.sub (continuous_const.mul continuous_id)).mul continuous_id)
      · exact continuous_id
      · exact continuous_const
      · intro x hx
        subst hx
        norm_num
    exact hcont.continuousOn
  · intro x hx y hy hxy
    rw [easeScale, easeScale]
    split_ifs with h1 h2 h2
    · nlinarith [hx.1, hy.1]
    · push_neg at h2
      nlinarith [hx.1, hy.2]
    · push_neg at h1
      linarith
    · push_neg at h1 h2
      nlinarith [hy.2]

/-- C3: while a mouse drag is active, a frame tick leaves `position` and
`velocity` unchanged (no velocity integration and no friction decay). -/
theorem tickMotion_during_drag (s : CState) (h : s.isDragging = true) :
    (tickMotion s).position = s.position ∧ (tickMotion s).velocity = s.velocity := by
  simp [tickMotion, h]

/-- Witness for C3 at the concrete mid-drag state. -/
theorem tickMotion_during_drag_witness :
    dragState.isDragging = true ∧
    (tickMotion dragState).position = dragState.position ∧
    (tickMotion dragState).velocity = dragState.velocity :=
  ⟨rfl, tickMotion_during_drag dragState rfl⟩

/-- C4: releasing the mouse while dragging exits the dragging state
unconditionally; when the elapsed time since the press is positive, the
handler assigns `velocity = clamp(-(dx/dt) * 0.03, -30, 30)`, a value that
always lies in `[-30, 30]`. -/
theorem onMouseUp_release_spec (s : CState) (cx now : ℚ) (h : s.isDragging = true) :
    (onMouseUp s cx now).isDragging = false ∧
    (0 < (now - s.dragStartTime) / 1000 →
      (onMouseUp s cx now).velocity =
        max (min (-((cx - s.dragStartX) / ((now - s.dragStartTime) / 1000)) * (3 / 100)) 30)
          (-30) ∧
      -30 ≤ (onMouseUp s cx now).velocity ∧ (onMouseUp s cx now).velocity ≤ 30) := by
  rw [onMouseUp, if_pos h]
  split_ifs with hdt
  · exact ⟨rfl, fun _ => ⟨rfl, le_max_right _ _, max_le (min_le_right _ _) (by norm_num)⟩⟩
  · exact ⟨rfl, fun hdt' => absurd hdt' hdt⟩

/-- Witness for C4, realizing the spec's scenario: press at X = 100 at time
0, release at X = 200 at time 500 ms (0.5 s): the handler leaves the
dragging state and sets `velocity = -6`. -/
theorem onMouseUp_release_spec_witness :
    (onMouseUp dragState 200 500).isDragging = false ∧
    (onMouseUp dragState 200 500).velocity = -6 := by
  have h := onMouseUp_release_spec dragState 200 500 rfl
  refine ⟨h.1, ?_⟩
  have h2 := (h.2 (by norm_num [dragState])).1
  rw [h2]
  norm_num [dragState, min_def, max_def]

/-- C5: at every frame and for every card index, the scale channel lies in
`[0.65, 1]`, the brightness channel in `[0.6, 1]` and the blur channel in
`[0, 6]`. -/
theorem cardChannels_bounded (s : CState) (i : ℕ) :
    (65 / 100 ≤ cardScale s i ∧ cardScale s i ≤ 1) ∧
    (6 / 10 ≤ cardBrightness s i ∧ cardBrightness s i ≤ 1) ∧
    (0 ≤ cardBlur s i ∧ cardBlur s i ≤ 6) := by
  have ht := clampQ_mem (cardDist s i / max s.windowInnerWidth 900)
  have h0 : 0 ≤ cardT s i ∧ cardT s i ≤ 1 := by
    rw [cardT]; exact easeScale_mem ht.1 ht.2
  refine ⟨⟨?_, ?_⟩, ⟨?_, ?_⟩, ⟨?_, ?_⟩⟩ <;>
    · simp only [cardScale, cardBrightness, cardBlur, mapRange, sub_zero, div_one]
      nlinarith [h0.1, h0.2]

/-- C6: each frame tick moves `smoothPos` by exactly the fraction
`lerpSpeed = 0.14` of the gap toward the (freshly integrated) `position`,
and no input or resize handler modifies `smoothPos`. -/
theorem smoothPos_lerp_invariant (s : CState) (d cx t iw w : ℚ) :
    lerpSpeed = 14 / 100 ∧
    (tickMotion s).smoothPos =
      s.smoothPos + ((tickMotion s).position - s.smoothPos) * lerpSpeed ∧
    (onWheel s d).smoothPos = s.smoothPos ∧
    (onTouchStart s cx).smoothPos = s.smoothPos ∧
    (onTouchMove s cx).smoothPos = s.smoothPos ∧
    (onTouchEnd s).smoothPos = s.smoothPos ∧
    (onMouseDown s cx t).smoothPos = s.smoothPos ∧
    (onMouseMove s cx).smoothPos = s.smoothPos ∧
    (onMouseUp s cx t).smoothPos = s.smoothPos ∧
    (onResize s iw w).smoothPos = s.smoothPos := by
  refine ⟨rfl, ?_, rfl, rfl, ?_, rfl, rfl, ?_, ?_, rfl⟩
  · by_cases h : s.isDragging = true <;> simp [tickMotion, h]
  · cases htx : s.touchStartX <;> simp [onTouchMove, htx]
  · rw [onMouseMove]; split_ifs <;> rfl
  · rw [onMouseUp]; split_ifs <;> rfl

/-- C7 counterexample: with zero velocity but a smoothed position still
lagging the raw position, a tick is not the identity on
(`position`, `smoothPos`): `smoothPos` moves from 0 to 0.14. -/
theorem tick_constancy_cex :
    lagState.velocity = 0 ∧
    ¬ ((tickMotion lagState).position = lagState.position ∧
       (tickMotion lagState).smoothPos = lagState.smoothPos) := by
  refine ⟨rfl, fun hc => ?_⟩
  have h2 := hc.2
  norm_num [tickMotion, lagState, lerpSpeed, friction] at h2

/-- C7 (amended): with velocity already 0, a frame tick leaves `position`
unchanged, and it also leaves `smoothPos` unchanged provided `smoothPos`
has already converged to `position`. -/
theorem tick_constancy_steady (s : CState) (hv : s.velocity = 0) :
    (tickMotion s).position = s.position ∧
    (s.smoothPos = s.position → (tickMotion s).smoothPos = s.smoothPos) := by
  constructor
  · by_cases h : s.isDragging = true <;> simp [tickMotion, h, hv]
  · intro hs
    by_cases h : s.isDragging = true <;> simp [tickMotion, h, hv, hs]

/-- Witness for the amended C7 at a concrete converged state. -/
theorem tick_constancy_steady_witness :
    steadyState.velocity = 0 ∧
    (tickMotion steadyState).position = steadyState.position ∧
    (tickMotion steadyState).smoothPos = steadyState.smoothPos := by
  have h := tick_constancy_steady steadyState rfl
  exact ⟨rfl, h.1, h.2 rfl⟩

/-- C8: the resize handler installs the re-measured item width, recomputes
`totalWidth = itemWidth × cardCount` and the viewport center, and leaves
`position`, `velocity`, `smoothPos` and the card count unchanged. -/
theorem onResize_spec (s : CState) (iw w : ℚ) :
    (onResize s iw w).itemW = iw ∧
    (onResize s iw w).totalWidth = iw * (s.numCards : ℚ) ∧
    (onResize s iw w).visibleCenterX = w / 2 ∧
    (onResize s iw w).position = s.position ∧
    (onResize s iw w).velocity = s.velocity ∧
    (onResize s iw w).smoothPos = s.smoothPos ∧
    (onResize s iw w).numCards = s.numCards := by
  simp [onResize]

/-- C9: a wheel event adds exactly `deltaY × wheelMultiplier` to the
velocity (10 when `deltaY = 100`) and leaves every other state field
unchanged. -/
theorem onWheel_spec (s : CState) (d : ℚ) :
    (onWheel s d).velocity = s.velocity + d * wheelMultiplier ∧
    (onWheel s 100).velocity = s.velocity + 10 ∧
    (onWheel s d).position = s.position ∧
    (onWheel s d).smoothPos = s.smoothPos ∧
    (onWheel s d).isDragging = s.isDragging ∧
    (onWheel s d).lastX = s.lastX ∧
    (onWheel s d).dragStartX = s.dragStartX ∧
    (onWheel s d).dragStartTime = s.dragStartTime ∧
    (onWheel s d).touchStartX = s.touchStartX ∧
    (onWheel s d).itemW = s.itemW ∧
    (onWheel s d).totalWidth = s.totalWidth ∧
    (onWheel s d).visibleCenterX = s.visibleCenterX ∧
    (onWheel s d).windowInnerWidth = s.windowInnerWidth ∧
    (onWheel s d).numCards = s.numCards := by
  refine ⟨rfl, ?_, rfl, rfl, rfl, rfl, rfl, rfl, rfl, rfl, rfl, rfl, rfl, rfl⟩
  rw [onWheel]
  norm_num [wheelMultiplier]

/-- C10: the inner-image parallax channels are unclamped linear maps of the
card's signed distance from the viewport center — `parallaxX = -80·d/w`,
`parallaxY = 20·d/w` — so any card whose center is farther than half the
window width from the center gets `parallaxX` outside `[-40, 40]` and
`parallaxY` outside `[-10, 10]`. -/
theorem parallax_unclamped (s : CState) (i : ℕ)
    (hw : 0 < s.windowInnerWidth)
    (hd : s.windowInnerWidth / 2 < |cardCenterX s i - s.visibleCenterX|) :
    parallaxX s i = -80 * (cardCenterX s i - s.visibleCenterX) / s.windowInnerWidth ∧
    parallaxY s i = 20 * (cardCenterX s i - s.visibleCenterX) / s.windowInnerWidth ∧
    40 < |parallaxX s i| ∧ 10 < |parallaxY s i| := by
  have hden : s.windowInnerWidth / 2 - -s.windowInnerWidth / 2 = s.windowInnerWidth := by
    ring
  have hx : parallaxX s i = -80 * (cardCenterX s i - s.visibleCenterX) / s.windowInnerWidth := by
    rw [parallaxX, mapRange, hden]
    field_simp
    ring
  have hy : parallaxY s i = 20 * (cardCenterX s i - s.visibleCenterX) / s.windowInnerWidth := by
    rw [parallaxY, mapRange, hden]
    field_simp
    ring
  refine ⟨hx, hy, ?_, ?_⟩
  · rw [hx, abs_div, abs_of_pos hw, lt_div_iff₀ hw, abs_mul]
    have h80 : |(-80 : ℚ)| = 80 := by norm_num
    rw [h80]
    linarith [hd]
  · rw [hy, abs_div, abs_of_pos hw, lt_div_iff₀ hw, abs_mul]
    have h20 : |(20 : ℚ)| = 20 := by norm_num
    rw [h20]
    linarith [hd]

/-- Witness for C10 at a concrete state whose card 0 center sits 400 away
from the center of a 100-wide window: `parallaxX = 320`, `parallaxY = -80`. -/
theorem parallax_unclamped_witness :
    (0 : ℚ) < farState.windowInnerWidth ∧
    farState.windowInnerWidth / 2 < |cardCenterX farState 0 - farState.visibleCenterX| ∧
    40 < |parallaxX farState 0| ∧ 10 < |parallaxY farState 0| := by
  have hcc : cardCenterX farState 0 = -350 := by
    norm_num [farState, cardCenterX, finalX, baseX, wrap, jsMod, ratTrunc,
      Int.floor_zero, Int.floor_one]
  have habs : |(-350 : ℚ) - 50| = 400 := by
    rw [show ((-350 : ℚ) - 50) = -400 by norm_num, abs_neg]
    exact abs_of_nonneg (by norm_num)
  have hd : farState.windowInnerWidth / 2 < |cardCenterX farState 0 - farState.visibleCenterX| := by
    rw [hcc]
    show (100 : ℚ) / 2 < |(-350 : ℚ) - 50|
    rw [habs]
    norm_num
  have h := parallax_unclamped farState 0 (by norm_num [farState]) hd
  exact ⟨by norm_num [farState], hd, h.2.2.1, h.2.2.2⟩

end Carousel
